import Mathlib

/-!
# Verification of the Database-Web admin/monitoring toolkit

Shallow embedding of the pieces of the Database-Web repository that the
specification's testable properties refer to:

* the SQL query-safety filter `isQuerySafe` and the `POST /api/database/query`
  handler of `DatabaseAdminServer` (src/unnamed/part_003);
* the monitoring service's alert de-duplication (`processAlert`), alert
  evaluation (`checkAlerts`), metrics storage (`storeMetrics`), metric
  collection (`collectMetrics`) and alert mailing (`sendAlert`)
  (src/unnamed/part_001);
* `DatabaseManager.restoreBackup` and the restore/backup CLI scripts
  (src/unnamed/part_003, scripts/restore-database.js, scripts/backup-database.js).

JavaScript strings are embedded as `String`/`List Char`; the handful of regular
expressions in `isQuerySafe` are embedded as continuation-passing Boolean
matchers with the exact backtracking semantics of the source patterns
(JS `\s`, the non-newline `.`, and negative lookahead included).
Timestamps are `Nat` milliseconds.  JS `now - ts < 3600000` and the Lean
truncated `Nat` subtraction agree: a negative JS difference and a truncated-to-0
Lean difference are both `< 3600000`.
-/

namespace DBWeb

/-! ## Character classes of the JavaScript regexes -/

/-- JS `\s`: whitespace characters (ASCII ones plus the Unicode space
characters that JS includes). -/
def isWsChar (c : Char) : Bool :=
  c == ' ' || c == '\t' || c == '\n' || c == '\r' || c == '\x0b' || c == '\x0c' ||
  c == ' ' || c == ' ' || (0x2000 ≤ c.toNat && c.toNat ≤ 0x200A) ||
  c == ' ' || c == ' ' || c == ' ' || c == ' ' ||
  c == '　' || c == '﻿'

/-- Line terminators, which JS `.` does not match. -/
def isLineTerm (c : Char) : Bool :=
  c == '\n' || c == '\r' || c == ' ' || c == ' '

/-- Case-insensitive matching of the ASCII-letter patterns is realized by
lowercasing the subject (`Char.toLower` only folds ASCII, which coincides with
JS case canonicalization for non-`u` regexes over ASCII patterns). -/
def lower (s : String) : List Char := s.data.map Char.toLower

/-! ## Continuation-passing matchers for the regex fragments

A matcher `List Char → Bool` decides whether its piece of the pattern matches a
prefix of the input such that the continuation accepts the rest.  Backtracking
of `\s*`, `\s+` and `.*` is by explicit disjunction, exactly as the regex
engine would try every split. -/

/-- Accept anything (the end of a pattern: the regex may be followed by
arbitrary text). -/
def restAny : List Char → Bool := fun _ => true

/-- Match a literal character sequence, then continue. -/
def litK : List Char → (List Char → Bool) → List Char → Bool
  | [], k, l => k l
  | _ :: _, _, [] => false
  | p :: ps, k, c :: l => p == c && litK ps k l

/-- Regex `\s*` then continue (tries every split). -/
def wsStarK (k : List Char → Bool) : List Char → Bool
  | [] => k []
  | c :: l => k (c :: l) || (isWsChar c && wsStarK k l)

/-- Regex `\s+` then continue. -/
def wsPlusK (k : List Char → Bool) : List Char → Bool
  | [] => false
  | c :: l => isWsChar c && wsStarK k l

/-- Regex `.*` then continue (`.` excludes line terminators). -/
def dotStarK (k : List Char → Bool) : List Char → Bool
  | [] => k []
  | c :: l => k (c :: l) || (!isLineTerm c && dotStarK k l)

/-- Unanchored search: try the matcher at every position (regex `.test` of a
pattern without `^`). -/
def searchK (k : List Char → Bool) : List Char → Bool
  | [] => k []
  | c :: l => k (c :: l) || searchK k l

/-! ## `DatabaseAdminServer.isQuerySafe` (src/unnamed/part_003, lines 239-265) -/

/-- Pattern `/drop\s+table/i`. -/
def dangerDropTable (l : List Char) : Bool :=
  searchK (litK "drop".data (wsPlusK (litK "table".data restAny))) l

/-- Pattern `/drop\s+database/i`. -/
def dangerDropDatabase (l : List Char) : Bool :=
  searchK (litK "drop".data (wsPlusK (litK "database".data restAny))) l

/-- Pattern `/truncate/i`. -/
def dangerTruncate (l : List Char) : Bool :=
  searchK (litK "truncate".data restAny) l

/-- Pattern `/alter\s+table.*drop/i`. -/
def dangerAlterDrop (l : List Char) : Bool :=
  searchK (litK "alter".data (wsPlusK (litK "table".data
    (dotStarK (litK "drop".data restAny))))) l

/-- Pattern `/delete\s+from\s+(?!.*where)/i` — DELETE without a same-line WHERE after
the split chosen for `\s+`. -/
def dangerDeleteNoWhere (l : List Char) : Bool :=
  searchK (litK "delete".data (wsPlusK (litK "from".data
    (wsPlusK (fun r => !dotStarK (litK "where".data restAny) r))))) l

/-- Pattern `/update\s+.*set\s+(?!.*where)/i` — UPDATE ... SET without a same-line
WHERE after the split chosen for the second `\s+`. -/
def dangerUpdateNoWhere (l : List Char) : Bool :=
  searchK (litK "update".data (wsPlusK (dotStarK (litK "set".data
    (wsPlusK (fun r => !dotStarK (litK "where".data restAny) r)))))) l

/-- The `dangerousPatterns` array: true when some dangerous pattern matches. -/
def dangerousAny (l : List Char) : Bool :=
  dangerDropTable l || dangerDropDatabase l || dangerTruncate l ||
  dangerAlterDrop l || dangerDeleteNoWhere l || dangerUpdateNoWhere l

/-- The `allowedPatterns` array: `^\s*select`, `^\s*insert`, `^\s*update.*where`,
`^\s*with`, `^\s*explain` (anchored, case-insensitive). -/
def allowedAny (l : List Char) : Bool :=
  wsStarK (litK "select".data restAny) l ||
  wsStarK (litK "insert".data restAny) l ||
  wsStarK (litK "update".data (dotStarK (litK "where".data restAny))) l ||
  wsStarK (litK "with".data restAny) l ||
  wsStarK (litK "explain".data restAny) l

/-- Source `DatabaseAdminServer.isQuerySafe`: reject when a dangerous pattern matches,
otherwise accept exactly when an allowed pattern matches. -/
def isQuerySafe (q : String) : Bool :=
  !dangerousAny (lower q) && allowedAny (lower q)

/-- The `POST /api/database/query` handler (src/unnamed/part_003, lines 92-107):
status 400 (`Unsafe query detected`) when the filter rejects; otherwise the
query is executed, a failing execution yielding 500 and a successful one 200.
`execFails` stands for whether `dbManager.executeQuery` throws. -/
def postQueryStatus (q : String) (execFails : Bool) : Nat :=
  if !isQuerySafe q then 400
  else if execFails then 500
  else 200

/-! ## Claim-statement predicates (formalizing the claims' premises;
these are not part of the program embedding) -/

/-- Case-sensitive substring containment over character lists. -/
def containsSub (l pat : List Char) : Bool :=
  searchK (litK pat restAny) l

/-- Case-insensitive containment of an (ASCII lowercase) pattern in a query
string: the claims' "contains ... in any letter case". -/
def containsCI (q : String) (pat : String) : Bool :=
  containsSub (lower q) pat.data

/-- The claims' "begins (after optional leading whitespace) with ...". -/
def startsAfterWs (q : String) (pat : String) : Bool :=
  litK pat.data restAny ((lower q).dropWhile (fun c => isWsChar c))

/-- Premise of C1's UPDATE case: the query contains `UPDATE`, whitespace, then
(on the same line) `SET` followed by whitespace — an UPDATE statement in the
shape the source's regex recognizes. -/
def containsUpdateSetClause (q : String) : Bool :=
  searchK (litK "update".data (wsPlusK (dotStarK (litK "set".data
    (wsPlusK restAny))))) (lower q)

/-! ## MonitoringService alert evaluation and de-duplication
(src/unnamed/part_001, lines 221-311) -/

/-- An alert candidate produced by `checkAlerts` (message text omitted: it is a
formatted rendering of `type`/`value` and plays no role in control flow). -/
structure Alert where
  type : String
  level : String
  value : ℚ
deriving DecidableEq

/-- The dedup key: `` `${alert.type}_${alert.level}` ``. -/
def alertKey (a : Alert) : String := a.type ++ "_" ++ a.level

/-- An `alertHistory` entry: `{ key, timestamp, alert }`. -/
structure HistEntry where
  key : String
  timestamp : Nat
  alert : Alert
deriving DecidableEq

/-- The `find` predicate in `processAlert`:
`a.key === alertKey && (now - a.timestamp) < 3600000`. -/
def isRecent (key : String) (now : Nat) (e : HistEntry) : Bool :=
  e.key == key && decide (now - e.timestamp < 3600000)

/-- Source `existingMetrics.slice(-n)` applied only past the capacity check:
`if (l.length > n) l = l.slice(-n)`. -/
def trimLast (n : Nat) (l : List α) : List α :=
  if l.length > n then l.drop (l.length - n) else l

/-- The history entry pushed on dispatch. -/
def mkEntry (a : Alert) (now : Nat) : HistEntry :=
  ⟨alertKey a, now, a⟩

/-- Source `MonitoringService.processAlert` (lines 263-285): returns whether the alert
was dispatched (no entry of the same key younger than one hour) together with
the updated `alertHistory` (entry pushed and history trimmed to its last 100
entries on dispatch; unchanged on suppression). -/
def processAlert (hist : List HistEntry) (a : Alert) (now : Nat) :
    Bool × List HistEntry :=
  match hist.find? (isRecent (alertKey a) now) with
  | some _ => (false, hist)
  | none => (true, trimLast 100 (hist ++ [mkEntry a now]))

/-- Dispatch trace of a sequence of candidate alerts fed through
`processAlert` (each with the `Date.now()` observed at its processing):
the list of `(dedup key, dispatch time)` of the alerts actually sent. -/
def runAlerts : List HistEntry → List (Alert × Nat) → List (String × Nat)
  | _, [] => []
  | hist, (a, t) :: rest =>
    match processAlert hist a t with
    | (true, h2) => (alertKey a, t) :: runAlerts h2 rest
    | (false, h2) => runAlerts h2 rest

/-- The `alertHistory` after feeding a sequence of candidates through
`processAlert`. -/
def finalHist : List HistEntry → List (Alert × Nat) → List HistEntry
  | hist, [] => hist
  | hist, (a, t) :: rest => finalHist (processAlert hist a t).2 rest

/-! ## MonitoringService.checkAlerts (lines 221-261) -/

/-- Source `alertThresholds` of the constructor (lines 27-32); defaults 80/1000/85/10. -/
structure Thresholds where
  maxConnections : Nat
  slowQueryThreshold : Nat
  diskUsageThreshold : Nat
  errorRate : Nat
deriving DecidableEq

def defaultThresholds : Thresholds := ⟨80, 1000, 85, 10⟩

/-- Row of the `pg_stat_activity` connection query. -/
structure ConnRow where
  active_connections : Nat
  idle_connections : Nat
  active_queries : Nat
deriving DecidableEq

/-- Row of the `pg_stat_statements` performance query. -/
structure PerfRow where
  total_queries : Nat
  total_query_time : Nat
  slow_queries : Nat
deriving DecidableEq

/-- Row of the `pg_locks` query. -/
structure LockRow where
  mode : String
  lock_count : Nat
deriving DecidableEq

/-- A `MetricsSnapshot` as assembled by `collectMetrics` (lines 100-107). -/
structure Metrics where
  timestamp : Nat
  connections : ConnRow
  performance : PerfRow
  db_size : Nat
  locks : List LockRow
deriving DecidableEq

/-- Source `MonitoringService.checkAlerts`: the candidate alerts of one snapshot, in
source order.  `connectionUsage = (active_connections / 100) * 100` with real
division (exact in `ℚ`; the double rounding of JS cannot move the value across
the integer thresholds compared against). -/
def checkAlerts (th : Thresholds) (m : Metrics) : List Alert :=
  (if ((m.connections.active_connections : ℚ) / 100) * 100 > (th.maxConnections : ℚ)
   then [⟨"high_connection_usage", "warning",
          ((m.connections.active_connections : ℚ) / 100) * 100⟩] else []) ++
  (if m.performance.slow_queries > 0
   then [⟨"slow_queries", "warning", (m.performance.slow_queries : ℚ)⟩] else []) ++
  (if ((m.db_size : ℚ) / (1024 * 1024 * 1024)) > 1
   then [⟨"large_database", "info", (m.db_size : ℚ) / (1024 * 1024 * 1024)⟩] else [])

/-- The candidate stream of a sequence of collection ticks: each snapshot's
candidates (in order), each processed at the snapshot's timestamp. -/
def ticksTrace (th : Thresholds) (ms : List Metrics) : List (Alert × Nat) :=
  (ms.map (fun m => (checkAlerts th m).map (fun a => (a, m.timestamp)))).flatten

/-! ## MonitoringService.storeMetrics (lines 125-150) -/

/-- The in-memory transformation of the stored metrics history on one tick:
push the snapshot, then `if (length > 1000) slice(-1000)`.  (The surrounding
file I/O is best-effort and does not alter this transformation.) -/
def storeMetrics (hist : List Metrics) (m : Metrics) : List Metrics :=
  let h := hist ++ [m]
  if h.length > 1000 then h.drop (h.length - 1000) else h

/-! ## MonitoringService.collectMetrics (lines 65-123) -/

/-- The four catalog queries issued by `collectMetrics`, in source order. -/
inductive QueryId
  | conn | perf | size | locks
deriving DecidableEq

/-- Outcome of each catalog query, were it issued.  The performance query may
return no row (`rows[0]` undefined), defaulted by the source to zeros. -/
structure QueryOutcomes where
  connQ : Except String ConnRow
  perfQ : Except String (Option PerfRow)
  sizeQ : Except String Nat
  lockQ : Except String (List LockRow)

/-- Monitoring-service state touched by a collection tick. -/
structure MonState where
  errors : Nat
  lastCollection : Option Nat
  metricsHistory : List Metrics
  alertHistory : List HistEntry
deriving DecidableEq

/-- Observable record of one tick: which queries were issued (in order),
whether the pooled client was released (the `finally`), the error logged by the
`catch` (if any), and the alerts dispatched. -/
structure TickReport where
  issued : List QueryId
  released : Bool
  loggedError : Option String
  dispatched : List (String × Nat)
deriving DecidableEq

/-- Source `MonitoringService.collectMetrics`: issues the four queries in order; the
first failure flows to the single `catch` (log + `this.metrics.errors++`) and
ends the tick; the `finally` always releases the client.  On success the
snapshot is stored and the alert rules evaluated. -/
def collectMetrics (st : MonState) (th : Thresholds) (q : QueryOutcomes)
    (now : Nat) : MonState × TickReport :=
  match q.connQ with
  | .error e => ({ st with errors := st.errors + 1 },
                 ⟨[.conn], true, some e, []⟩)
  | .ok conn =>
    match q.perfQ with
    | .error e => ({ st with errors := st.errors + 1 },
                   ⟨[.conn, .perf], true, some e, []⟩)
    | .ok perfOpt =>
      match q.sizeQ with
      | .error e => ({ st with errors := st.errors + 1 },
                     ⟨[.conn, .perf, .size], true, some e, []⟩)
      | .ok sz =>
        match q.lockQ with
        | .error e => ({ st with errors := st.errors + 1 },
                       ⟨[.conn, .perf, .size, .locks], true, some e, []⟩)
        | .ok locks =>
          let m : Metrics := ⟨now, conn, perfOpt.getD ⟨0, 0, 0⟩, sz, locks⟩
          let cands := (checkAlerts th m).map (fun a => (a, now))
          ({ errors := st.errors,
             lastCollection := some now,
             metricsHistory := storeMetrics st.metricsHistory m,
             alertHistory := finalHist st.alertHistory cands },
           ⟨[.conn, .perf, .size, .locks], true, none,
            runAlerts st.alertHistory cands⟩)

/-! ## MonitoringService.sendAlert (lines 287-311) -/

/-- What one `sendAlert` call does: always `logger.warn` with the title; when
mail is configured, attempt the send; a mail failure is caught and logged
(`emailFailure`), never rethrown — the function is total and returns this
report to its caller. -/
structure SendReport where
  warnTitle : String
  emailAttempted : Bool
  emailFailure : Option String
deriving DecidableEq

/-- Source `MonitoringService.sendAlert` with the outcome of the outbound
`sendMail` supplied as `mail` (only consulted when mail is configured). -/
def sendAlert (title : String) {α : Type} (_details : α)
    (emailConfigured : Bool) (mail : Except String Unit) : SendReport :=
  if emailConfigured then
    match mail with
    | .ok _ => ⟨title, true, none⟩
    | .error e => ⟨title, true, some e⟩
  else ⟨title, false, none⟩

/-- The alert loop with its mail channel: like `runAlerts`, but each dispatch
also performs `sendAlert`, consuming the next outcome from the ambient mail
channel `mails`.  Returns (final history, dispatches, send reports). -/
def runAlertsMail : List HistEntry → List (Alert × Nat) →
    List (Except String Unit) →
    List HistEntry × List (String × Nat) × List SendReport
  | hist, [], _ => (hist, [], [])
  | hist, (a, t) :: rest, mails =>
    match processAlert hist a t with
    | (true, h2) =>
      let rep := sendAlert a.type a true (mails.headD (.ok ()))
      let r := runAlertsMail h2 rest mails.tail
      (r.1, (alertKey a, t) :: r.2.1, rep :: r.2.2)
    | (false, h2) => runAlertsMail h2 rest mails

/-! ## DatabaseManager backup/restore (src/unnamed/part_003, lines 442-605)
and the backup/restore CLI scripts -/

/-- A backup file as the scripts see it: its path, `fs.stat` size, and (for the
content probe of `validateBackup`) its text content. -/
structure BackupFile where
  path : String
  size : Nat
  content : String
deriving DecidableEq

/-- Helper for `extname` on the reversed last path component: the distance
from the end to the last dot is the length of the dot-free suffix; the
extension exists when that dot is not the component's first character. -/
def extAux (rbase : List Char) : String :=
  if (rbase.takeWhile (fun c => c != '.')).length + 1 < rbase.length then
    String.mk ((rbase.take ((rbase.takeWhile (fun c => c != '.')).length + 1)).reverse)
  else ""

/-- Node `path.extname`: the extension of the last path component — from the last
dot, provided that dot is not the component's first character; `""` when the
component has no dot or only its leading dot. -/
def extname (p : String) : String :=
  extAux (p.data.reverse.takeWhile (fun c => c != '/'))

/-- What `DatabaseManager.restoreBackup` decides to do, before any external
tool output is seen: spawn `psql -f path`, or throw. -/
inductive RestoreDecision
  | runPsql (path : String)
  | throwError (msg : String)
deriving DecidableEq

/-- Source `DatabaseManager.restoreBackup` (lines 551-563): dispatch on
`path.extname` only — `.sql` spawns psql on the file, `.zip` reaches
`restoreCSVBackup` which throws, anything else throws
`Unsupported backup file format`.  No size or content validation. -/
def restoreBackup (f : BackupFile) : RestoreDecision :=
  let ext := extname f.path
  if ext = ".sql" then .runPsql f.path
  else if ext = ".zip" then .throwError "CSV restore not implemented yet"
  else .throwError "Unsupported backup file format"

/-- The `POST /api/database/restore` handler (lines 126-138): it calls
`restoreBackup` directly; 200 on success, 500 when it (or the spawned tool,
whose exit code is `psqlExit`) fails.  It performs no validation of its own. -/
def postRestoreStatus (f : BackupFile) (psqlExit : Nat) : Nat :=
  match restoreBackup f with
  | .runPsql _ => if psqlExit = 0 then 200 else 500
  | .throwError _ => 500

/-- JS `String.endsWith`, via list suffix. -/
def endsWithStr (s suffix : String) : Bool :=
  suffix.data.isSuffixOf s.data

/-- Source `RestoreManager.validateBackup` (scripts/restore-database.js, lines
191-219): empty files are invalid; `.sql`/`.gz` files must contain `CREATE`,
`INSERT` or `COPY` (case-sensitive `String.includes`); anything else passes. -/
def validateBackup (f : BackupFile) : Bool :=
  if f.size == 0 then false
  else if endsWithStr f.path ".sql" || endsWithStr f.path ".gz" then
    containsSub f.content.data "CREATE".data ||
    containsSub f.content.data "INSERT".data ||
    containsSub f.content.data "COPY".data
  else true

/-- Remove the first occurrence of `pat` (JS `String.replace(pat, '')` with a
string pattern). -/
def removeFirst (pat : List Char) : List Char → List Char
  | [] => []
  | c :: l =>
    if pat.isPrefixOf (c :: l) then (c :: l).drop pat.length
    else c :: removeFirst pat l

/-- Source `RestoreManager.decompressBackup`: writes the gunzipped payload beside the
archive at `compressedPath.replace('.gz', '')`.  The payload itself is opaque
here; `content` stands for the decompressed bytes. -/
def decompressBackup (f : BackupFile) : BackupFile :=
  ⟨String.mk (removeFirst ".gz".data f.path.data), f.size, f.content⟩

/-- Source `BackupManager.compressBackup` (scripts/backup-database.js, lines 67-89):
the compressed archive is written at `backupPath + '.gz'` (and the original
removed), so a compressed backup's path ends in `.gz`. -/
def compressBackupPath (backupPath : String) : String := backupPath ++ ".gz"

/-- Outcome of the interactive restore CLI's `main`. -/
inductive CliOutcome
  | rejectedInvalidBackup
  | cancelled
  | dryRunOnly
  | restoreAttempted (act : RestoreDecision)
deriving DecidableEq

/-- Source `main` of scripts/restore-database.js: validate the selected backup and
`process.exit(1)` on failure; then (restore point, a pg_dump), confirmation,
and `performRestore`, which returns before any restore work in dry-run mode and
otherwise decompresses `.gz` archives and calls `restoreBackup`. -/
def restoreCliMain (f : BackupFile) (confirmed dryRun : Bool) : CliOutcome :=
  if validateBackup f = false then .rejectedInvalidBackup
  else if confirmed = false then .cancelled
  else if dryRun then .dryRunOnly
  else
    let g := if endsWithStr f.path ".gz" then decompressBackup f else f
    .restoreAttempted (restoreBackup g)

/-! ## Concrete scenarios used by the claims -/

/-- A snapshot with the given timestamp and `active_connections`, no slow
queries and a small database (the shape of the spec's three-tick scenario). -/
def snap (t conns : Nat) : Metrics := ⟨t, ⟨conns, 0, 0⟩, ⟨0, 0, 0⟩, 0, []⟩

/-- 101 pairwise distinct alert types (single characters). -/
def cexType (i : Nat) : String := String.mk [Char.ofNat (65 + i)]

/-- A candidate sequence defeating the cooldown: 101 distinct keys dispatched
at time 0 (evicting the first entry from the 100-capped history), then the
first key again one millisecond later. -/
def cexTrace : List (Alert × Nat) :=
  (List.range 101).map (fun i => (⟨cexType i, "w", 0⟩, 0)) ++ [(⟨cexType 0, "w", 0⟩, 1)]

/-- The middle 100 dispatches of `runAlerts [] cexTrace`. -/
def cexMid : List (String × Nat) :=
  (List.range 100).map (fun i => (cexType (i + 1) ++ "_w", 0))

/-- Whether a dispatch list contains two dispatches of the same key less than
one hour apart (in dispatch order). -/
def hasDoubleWithinHour : List (String × Nat) → Bool
  | [] => false
  | d :: rest =>
    rest.any (fun d2 => d2.1 == d.1 && decide (d2.2 - d.2 < 3600000)) ||
    hasDoubleWithinHour rest

/-! # Helper lemmas -/

/-! ## Capped-list (slice(-n)) lemmas -/

theorem trimLast_eq_drop (n : Nat) (l : List α) :
    trimLast n l = l.drop (l.length - n) := by
  unfold trimLast
  split
  · rfl
  · rename_i h
    have h0 : l.length - n = 0 := by omega
    simp [h0]

theorem trimLast_length (n : Nat) (l : List α) :
    (trimLast n l).length = min l.length n := by
  rw [trimLast_eq_drop, List.length_drop]
  omega

theorem trimLast_decompose (n : Nat) (l1 l2 : List α) (e : α)
    (h : l2.length + 1 ≤ n) :
    ∃ l1', trimLast n (l1 ++ e :: l2) = l1' ++ e :: l2 := by
  rw [trimLast_eq_drop]
  have hd : (l1 ++ e :: l2).length - n ≤ l1.length := by
    simp [List.length_append]
    omega
  exact ⟨l1.drop _, List.drop_append_of_le_length hd⟩

theorem getLast?_drop_concat (k : Nat) (l : List α) (x : α) (h : k ≤ l.length) :
    ((l ++ [x]).drop k).getLast? = some x := by
  rw [List.drop_append_of_le_length h]
  exact List.getLast?_concat _

/-! ## processAlert / runAlerts rewriting -/

theorem processAlert_suppressed {hist : List HistEntry} {a : Alert} {now : Nat}
    {x : HistEntry} (h : hist.find? (isRecent (alertKey a) now) = some x) :
    processAlert hist a now = (false, hist) := by
  simp [processAlert, h]

theorem processAlert_dispatched {hist : List HistEntry} {a : Alert} {now : Nat}
    (h : hist.find? (isRecent (alertKey a) now) = none) :
    processAlert hist a now = (true, trimLast 100 (hist ++ [mkEntry a now])) := by
  simp [processAlert, h]

theorem runAlerts_cons_suppressed {hist : List HistEntry} {a : Alert} {t : Nat}
    {rest : List (Alert × Nat)} {x : HistEntry}
    (h : hist.find? (isRecent (alertKey a) t) = some x) :
    runAlerts hist ((a, t) :: rest) = runAlerts hist rest := by
  simp [runAlerts, processAlert, h]

theorem runAlerts_cons_dispatched {hist : List HistEntry} {a : Alert} {t : Nat}
    {rest : List (Alert × Nat)}
    (h : hist.find? (isRecent (alertKey a) t) = none) :
    runAlerts hist ((a, t) :: rest) =
      (alertKey a, t) :: runAlerts (trimLast 100 (hist ++ [mkEntry a t])) rest := by
  simp [runAlerts, processAlert, h]

/-- While an entry of key `k` sits within the last `100 - m` history slots, a
dispatch of key `k` among the next `m` dispatches can only happen at least one
hour after that entry's timestamp: `processAlert` suppresses it otherwise. -/
theorem dispatch_blocked_by_surviving_entry :
    ∀ (trace : List (Alert × Nat)) (hist l1 l2 : List HistEntry) (e : HistEntry)
      (pre post : List (String × Nat)) (b : String × Nat),
      hist = l1 ++ e :: l2 →
      runAlerts hist trace = pre ++ b :: post →
      pre.length + l2.length < 100 →
      b.1 = e.key →
      3600000 ≤ b.2 - e.timestamp := by
  intro trace
  induction trace with
  | nil =>
    intro hist l1 l2 e pre post b _ hr _ _
    rw [runAlerts] at hr
    exact absurd hr.symm (List.append_ne_nil_of_right_ne_nil pre (by simp))
  | cons head rest ih =>
    obtain ⟨a, t⟩ := head
    intro hist l1 l2 e pre post b hh hr hlen hkey
    cases hfind : hist.find? (isRecent (alertKey a) t) with
    | some x =>
      rw [runAlerts_cons_suppressed hfind] at hr
      exact ih hist l1 l2 e pre post b hh hr hlen hkey
    | none =>
      rw [runAlerts_cons_dispatched hfind] at hr
      have hall : ∀ x ∈ hist, ¬ isRecent (alertKey a) t x = true :=
        List.find?_eq_none.mp hfind
      cases pre with
      | nil =>
        simp only [List.nil_append] at hr hlen
        have hb : b = (alertKey a, t) := ((List.cons.injEq _ _ _ _ ▸ hr).1).symm
        have he : e ∈ hist := by
          rw [hh]; exact List.mem_append_right _ (List.mem_cons_self e l2)
        have hne : ¬ isRecent (alertKey a) t e = true := hall e he
        have hek : e.key = alertKey a := by rw [← hkey, hb]
        simp only [isRecent, hek, beq_self_eq_true, Bool.true_and,
          decide_eq_true_eq] at hne
        have : b.2 = t := by rw [hb]
        omega
      | cons p pre' =>
        have hr2 : runAlerts (trimLast 100 (hist ++ [mkEntry a t])) rest =
            pre' ++ b :: post := by
          have := (List.cons.injEq _ _ _ _ ▸ hr)
          simpa using this.2
        have hsub : l2.length + 1 + 1 ≤ 100 := by
          simp [List.length_cons] at hlen; omega
        obtain ⟨l1', hdec⟩ :=
          trimLast_decompose 100 l1 (l2 ++ [mkEntry a t]) e (by simp; omega)
        have hh2 : trimLast 100 (hist ++ [mkEntry a t]) =
            l1' ++ e :: (l2 ++ [mkEntry a t]) := by
          rw [hh]
          simpa using hdec
        have hlen2 : pre'.length + (l2 ++ [mkEntry a t]).length < 100 := by
          simp [List.length_cons] at hlen ⊢; omega
        exact ih _ l1' (l2 ++ [mkEntry a t]) e pre' post b hh2 hr2 hlen2 hkey

theorem processAlert_length_le {hist : List HistEntry} (a : Alert) (now : Nat)
    (h : hist.length ≤ 100) : (processAlert hist a now).2.length ≤ 100 := by
  cases hfind : hist.find? (isRecent (alertKey a) now) with
  | some x => rw [processAlert_suppressed hfind]; exact h
  | none =>
    rw [processAlert_dispatched hfind]
    simp [trimLast_length]

theorem finalHist_length_le :
    ∀ (trace : List (Alert × Nat)) (hist : List HistEntry),
      hist.length ≤ 100 → (finalHist hist trace).length ≤ 100
  | [], _, h => h
  | (a, t) :: rest, hist, h =>
    finalHist_length_le rest (processAlert hist a t).2
      (processAlert_length_le a t h)

theorem runAlertsMail_spec (trace : List (Alert × Nat)) :
    ∀ (hist : List HistEntry) (mails : List (Except String Unit)),
      (runAlertsMail hist trace mails).1 = finalHist hist trace ∧
      (runAlertsMail hist trace mails).2.1 = runAlerts hist trace ∧
      (runAlertsMail hist trace mails).2.2.length =
        (runAlerts hist trace).length := by
  induction trace with
  | nil => intro hist mails; simp [runAlertsMail, finalHist, runAlerts]
  | cons head rest ih =>
    obtain ⟨a, t⟩ := head
    intro hist mails
    cases hp : processAlert hist a t with
    | mk sent h2 =>
      cases sent
      · have h1 := ih h2 mails
        simp [runAlertsMail, runAlerts, finalHist, hp, h1.1, h1.2.1, h1.2.2]
      · have h1 := ih h2 mails.tail
        simp [runAlertsMail, runAlerts, finalHist, hp, h1.1, h1.2.1, h1.2.2]

/-! # Claims -/

/-- C2 (amended): an alert whose dedup key equals that of an alert dispatched
less than 3600000 ms earlier is suppressed **unless** the earlier dispatch's
history entry has been evicted by the 100-entry cap: whenever two dispatches of
the same type+severity key occur less than one hour apart, at least 100 other
alerts were dispatched strictly between them. -/
theorem alert_cooldown_amended :
    ∀ (trace : List (Alert × Nat)) (hist : List HistEntry)
      (pre mid post : List (String × Nat)) (a b : String × Nat),
      runAlerts hist trace = pre ++ a :: (mid ++ b :: post) →
      a.1 = b.1 →
      b.2 - a.2 < 3600000 →
      100 ≤ mid.length := by
  intro trace
  induction trace with
  | nil =>
    intro hist pre mid post a b hr _ _
    rw [runAlerts] at hr
    exact absurd hr.symm (List.append_ne_nil_of_right_ne_nil pre (by simp))
  | cons head rest ih =>
    obtain ⟨al, t⟩ := head
    intro hist pre mid post a b hr hk hlt
    cases hfind : hist.find? (isRecent (alertKey al) t) with
    | some x =>
      rw [runAlerts_cons_suppressed hfind] at hr
      exact ih hist pre mid post a b hr hk hlt
    | none =>
      rw [runAlerts_cons_dispatched hfind] at hr
      cases pre with
      | nil =>
        simp only [List.nil_append] at hr
        have ha : a = (alertKey al, t) := ((List.cons.injEq _ _ _ _ ▸ hr).1).symm
        have hrest : runAlerts (trimLast 100 (hist ++ [mkEntry al t])) rest =
            mid ++ b :: post := (List.cons.injEq _ _ _ _ ▸ hr).2
        by_contra hcon
        have hmid : mid.length + ([] : List HistEntry).length < 100 := by
          simp; omega
        obtain ⟨l1', hdec⟩ := trimLast_decompose 100 hist
          ([] : List HistEntry) (mkEntry al t) (by simp)
        have hbk : b.1 = (mkEntry al t).key := by rw [← hk, ha]; rfl
        have ht : 3600000 ≤ b.2 - (mkEntry al t).timestamp :=
          dispatch_blocked_by_surviving_entry rest _ l1' [] (mkEntry al t)
            mid post b hdec hrest hmid hbk
        have ha2 : a.2 = t := by rw [ha]
        have hts : (mkEntry al t).timestamp = t := rfl
        omega
      | cons p pre' =>
        have hr2 : runAlerts (trimLast 100 (hist ++ [mkEntry al t])) rest =
            pre' ++ a :: (mid ++ b :: post) := by
          have := (List.cons.injEq _ _ _ _ ▸ hr)
          simpa using this.2
        exact ih _ pre' mid post a b hr2 hk hlt

set_option maxRecDepth 4000 in
/-- C2 (counterexample): after 101 alerts of pairwise distinct keys at time 0
the 100-capped history has evicted the first key's entry, so the first key is
dispatched again at time 1 — two dispatches of the same type+severity one
millisecond apart, refuting the claim as stated over arbitrary candidate
sequences. -/
theorem alert_cooldown_counterexample :
    hasDoubleWithinHour (runAlerts [] cexTrace) = true ∧
    (runAlerts [] cexTrace).head? = some ("A_w", 0) ∧
    (runAlerts [] cexTrace).getLast? = some ("A_w", 1) := by decide

set_option maxRecDepth 4000 in
/-- C2 (witness): the amended bound applied to the eviction trace — between
the two dispatches of key `A_w` lie exactly 100 other dispatches. -/
theorem alert_cooldown_amended_witness : 100 ≤ cexMid.length :=
  alert_cooldown_amended cexTrace [] [] cexMid [] ("A_w", 0) ("A_w", 1)
    (by decide) (by decide) (by decide)

/-- C4: `storeMetrics` appends the snapshot and keeps exactly the 1000 most
recent entries in append order: the stored history is the suffix
`(hist ++ [m]).drop ((hist.length + 1) - 1000)` (oldest entries dropped), its
length is `min (hist.length + 1) 1000`, never exceeds 1000, and its last
element is the snapshot just appended. -/
theorem metrics_history_fifo_bound (hist : List Metrics) (m : Metrics) :
    storeMetrics hist m = (hist ++ [m]).drop ((hist.length + 1) - 1000) ∧
    (storeMetrics hist m).length = min (hist.length + 1) 1000 ∧
    (storeMetrics hist m).length ≤ 1000 ∧
    (storeMetrics hist m).getLast? = some m := by
  have he : storeMetrics hist m = (hist ++ [m]).drop ((hist.length + 1) - 1000) := by
    simp only [storeMetrics, List.length_append, List.length_cons,
      List.length_nil, Nat.zero_add]
    split
    · rfl
    · rename_i h
      have h0 : hist.length + 1 - 1000 = 0 := by omega
      rw [h0, List.drop_zero]
  have hl : (storeMetrics hist m).length = min (hist.length + 1) 1000 := by
    rw [he, List.length_drop, List.length_append]
    simp
    omega
  refine ⟨he, hl, by omega, ?_⟩
  rw [he]
  exact getLast?_drop_concat _ _ _ (by omega)

/-- C7: a failed outbound mail send is caught and recorded, never rethrown:
`sendAlert` returns normally with the failure in its report, and the
dispatch decisions, history updates and number of send attempts of the alert
loop are identical for every sequence of mail outcomes — a delivery failure
never aborts the evaluation loop. -/
theorem send_alert_never_propagates (title : String) (a : Alert) (e : String)
    (hist : List HistEntry) (trace : List (Alert × Nat))
    (mails : List (Except String Unit)) :
    sendAlert title a true (Except.error e) = ⟨title, true, some e⟩ ∧
    sendAlert title a false (Except.error e) = ⟨title, false, none⟩ ∧
    (runAlertsMail hist trace mails).1 = finalHist hist trace ∧
    (runAlertsMail hist trace mails).2.1 = runAlerts hist trace ∧
    (runAlertsMail hist trace mails).2.2.length = (runAlerts hist trace).length :=
  ⟨rfl, rfl, (runAlertsMail_spec trace hist mails).1,
   (runAlertsMail_spec trace hist mails).2.1,
   (runAlertsMail_spec trace hist mails).2.2⟩

/-- C8: after every `processAlert` the alert history holds at most 100
entries: a step from a within-bound history stays within bound, every state
reachable from the empty history is within bound, and on dispatch the new
history is exactly the 100 most recent entries in append order (the oldest
dropped first); on suppression it is unchanged. -/
theorem alert_history_bound :
    (∀ (hist : List HistEntry) (a : Alert) (now : Nat), hist.length ≤ 100 →
      (processAlert hist a now).2.length ≤ 100) ∧
    (∀ (hist : List HistEntry) (a : Alert) (now : Nat),
      (processAlert hist a now).1 = true →
      (processAlert hist a now).2 =
        (hist ++ [mkEntry a now]).drop ((hist.length + 1) - 100)) ∧
    (∀ (hist : List HistEntry) (a : Alert) (now : Nat),
      (processAlert hist a now).1 = false →
      (processAlert hist a now).2 = hist) ∧
    (∀ trace : List (Alert × Nat), (finalHist [] trace).length ≤ 100) := by
  refine ⟨fun hist a now h => processAlert_length_le a now h, ?_, ?_,
    fun trace => finalHist_length_le trace [] (by simp)⟩
  · intro hist a now h
    cases hfind : hist.find? (isRecent (alertKey a) now) with
    | some x => rw [processAlert_suppressed hfind] at h; simp at h
    | none =>
      rw [processAlert_dispatched hfind, trimLast_eq_drop]
      simp
  · intro hist a now h
    cases hfind : hist.find? (isRecent (alertKey a) now) with
    | some x => rw [processAlert_suppressed hfind]
    | none => rw [processAlert_dispatched hfind] at h; simp at h

/-- C8 (witness): the bound and the append shape at a concrete dispatch. -/
theorem alert_history_bound_witness :
    (processAlert [] ⟨"slow_queries", "warning", 5⟩ 0).2.length ≤ 100 ∧
    (processAlert [] ⟨"slow_queries", "warning", 5⟩ 0).2 =
      (([] : List HistEntry) ++ [mkEntry ⟨"slow_queries", "warning", 5⟩ 0]).drop
        ((([] : List HistEntry).length + 1) - 100) ∧
    (finalHist [] [(⟨"slow_queries", "warning", 5⟩, 0)]).length ≤ 100 :=
  ⟨alert_history_bound.1 [] ⟨"slow_queries", "warning", 5⟩ 0 (by simp),
   alert_history_bound.2.1 [] ⟨"slow_queries", "warning", 5⟩ 0 (by decide),
   alert_history_bound.2.2.2 [(⟨"slow_queries", "warning", 5⟩, 0)]⟩

/-- C6: on every collection tick the pooled client is released, no catalog
query is issued twice, a failing query is logged and bumps the error counter
by exactly one (leaving the stored history and alert history untouched), a
fully successful tick leaves the counter unchanged, and no error is logged
exactly when all four queries succeed — the tick always returns (the error
never escapes). -/
theorem collect_metrics_error_handling (st : MonState) (th : Thresholds)
    (q : QueryOutcomes) (now : Nat) :
    (collectMetrics st th q now).2.released = true ∧
    (collectMetrics st th q now).2.issued.Nodup ∧
    ((collectMetrics st th q now).2.loggedError.isSome = true →
      (collectMetrics st th q now).1.errors = st.errors + 1 ∧
      (collectMetrics st th q now).1.metricsHistory = st.metricsHistory ∧
      (collectMetrics st th q now).1.alertHistory = st.alertHistory) ∧
    ((collectMetrics st th q now).2.loggedError = none →
      (collectMetrics st th q now).1.errors = st.errors) ∧
    ((collectMetrics st th q now).2.loggedError = none ↔
      q.connQ.isOk = true ∧ q.perfQ.isOk = true ∧
      q.sizeQ.isOk = true ∧ q.lockQ.isOk = true) := by
  obtain ⟨cq, pq, sq, lq⟩ := q
  cases cq <;> cases pq <;> cases sq <;> cases lq <;>
    simp [collectMetrics, Except.isOk, Except.toBool]

/-- C6 (witness): a tick whose first catalog query fails. -/
theorem collect_metrics_error_handling_witness :
    (collectMetrics ⟨0, none, [], []⟩ defaultThresholds
      ⟨Except.error "boom", Except.ok none, Except.ok 0, Except.ok []⟩ 5).1.errors =
      (⟨0, none, [], []⟩ : MonState).errors + 1 ∧
    (collectMetrics ⟨0, none, [], []⟩ defaultThresholds
      ⟨Except.error "boom", Except.ok none, Except.ok 0, Except.ok []⟩ 5).1.metricsHistory =
      (⟨0, none, [], []⟩ : MonState).metricsHistory ∧
    (collectMetrics ⟨0, none, [], []⟩ defaultThresholds
      ⟨Except.error "boom", Except.ok none, Except.ok 0, Except.ok []⟩ 5).1.alertHistory =
      (⟨0, none, [], []⟩ : MonState).alertHistory :=
  (collect_metrics_error_handling ⟨0, none, [], []⟩ defaultThresholds
    ⟨Except.error "boom", Except.ok none, Except.ok 0, Except.ok []⟩ 5).2.2.1 (by decide)

/-- C5 (amended): the interactive restore CLI rejects a zero-byte backup file
before any destructive operation (validation fails, `main` exits before the
restore point, the confirmation and any tool invocation); the
`POST /api/database/restore` endpoint, however, performs no size validation —
for a zero-byte `.sql` file `DatabaseManager.restoreBackup` proceeds straight
to invoking the external restore tool. -/
theorem restore_zero_byte_amended :
    (∀ (f : BackupFile) (confirmed dryRun : Bool), f.size = 0 →
      restoreCliMain f confirmed dryRun = CliOutcome.rejectedInvalidBackup) ∧
    (∀ p c : String, extname p = ".sql" →
      restoreBackup ⟨p, 0, c⟩ = RestoreDecision.runPsql p) := by
  constructor
  · intro f confirmed dryRun h
    have hv : validateBackup f = false := by simp [validateBackup, h]
    simp [restoreCliMain, hv]
  · intro p c h
    simp [restoreBackup, h]

/-- C5 (counterexample): the restore endpoint invokes psql on a zero-byte
`.sql` backup — the restore is not rejected before the destructive operation,
refuting the claim for the `POST /api/database/restore` entry point. -/
theorem restore_zero_byte_counterexample :
    restoreBackup ⟨"backup-1.sql", 0, ""⟩ = RestoreDecision.runPsql "backup-1.sql" ∧
    postRestoreStatus ⟨"backup-1.sql", 0, ""⟩ 0 = 200 := by decide

/-- C5 (witness): the amended claim at concrete files. -/
theorem restore_zero_byte_witness :
    restoreCliMain ⟨"backup-2.sql", 0, "CREATE TABLE"⟩ true false =
      CliOutcome.rejectedInvalidBackup ∧
    restoreBackup ⟨"b.sql", 0, ""⟩ = RestoreDecision.runPsql "b.sql" :=
  ⟨restore_zero_byte_amended.1 ⟨"backup-2.sql", 0, "CREATE TABLE"⟩ true false rfl,
   restore_zero_byte_amended.2 "b.sql" "" (by decide)⟩

/-- C3: three consecutive snapshots with `active_connections` 10, 95, 95
against the default `maxConnections` threshold of 80, all within one cooldown
hour: exactly one `high_connection_usage` alert is dispatched, triggered by the
second snapshot; the first snapshot raises no candidate and the third's
candidate is suppressed by the one-hour cooldown. -/
theorem connection_alert_scenario (t1 t2 t3 : Nat) (h : t3 - t2 < 3600000) :
    runAlerts [] (ticksTrace defaultThresholds [snap t1 10, snap t2 95, snap t3 95]) =
      [("high_connection_usage_warning", t2)] := by
  simp only [ticksTrace, List.map, checkAlerts, snap, defaultThresholds]
  norm_num
  simp [runAlerts, processAlert, isRecent, alertKey, trimLast, mkEntry, h]

/-- C3 (witness): the scenario at concrete tick times one minute apart. -/
theorem connection_alert_scenario_witness :
    runAlerts [] (ticksTrace defaultThresholds
      [snap 0 10, snap 60000 95, snap 120000 95]) =
      [("high_connection_usage_warning", 60000)] :=
  connection_alert_scenario 0 60000 120000 (by decide)

theorem takeWhile_append_pos {α : Type} (p : α → Bool) (l₁ l₂ : List α)
    (h : ∀ a ∈ l₁, p a = true) :
    (l₁ ++ l₂).takeWhile p = l₁ ++ l₂.takeWhile p := by
  induction l₁ with
  | nil => simp
  | cons a l ih =>
    have ha : p a = true := h a (List.mem_cons_self a l)
    have hl : ∀ x ∈ l, p x = true := fun x hx => h x (List.mem_cons_of_mem a hx)
    simp [List.takeWhile_cons, ha, ih hl]

theorem extname_sql_gz (p : String) : extname (p ++ ".sql.gz") = ".gz" := by
  unfold extname
  rw [String.data_append]
  have hrev : (p.data ++ ".sql.gz".data).reverse =
      ['z', 'g', '.', 'l', 'q', 's', '.'] ++ p.data.reverse := by
    rw [List.reverse_append]
    rfl
  rw [hrev]
  rw [takeWhile_append_pos (fun c => c != '/') _ _ (by decide)]
  unfold extAux
  have htw : (((['z', 'g', '.', 'l', 'q', 's', '.'] ++
      (p.data.reverse.takeWhile (fun c => c != '/'))).takeWhile
        (fun c => c != '.'))) = ['z', 'g'] := by
    rw [show (['z', 'g', '.', 'l', 'q', 's', '.'] ++
        (p.data.reverse.takeWhile (fun c => c != '/')))
        = 'z' :: 'g' :: '.' :: (['l', 'q', 's', '.'] ++
          (p.data.reverse.takeWhile (fun c => c != '/'))) from rfl]
    rw [List.takeWhile_cons_of_pos (by decide),
        List.takeWhile_cons_of_pos (by decide),
        List.takeWhile_cons_of_neg (by decide)]
  rw [htw]
  have hcond : (['z', 'g'] : List Char).length + 1 <
      (['z', 'g', '.', 'l', 'q', 's', '.'] ++
        (p.data.reverse.takeWhile (fun c => c != '/'))).length := by
    simp
  rw [if_pos hcond]
  rfl

/-- C10: `DatabaseManager.restoreBackup` dispatches on the file extension
alone — any extension other than `.sql` and `.zip` throws
`Unsupported backup file format` without invoking any external restore tool;
in particular, since the backup CLI's `--compress` writes the archive at
`backupPath + '.gz'`, every compressed backup (`....sql.gz`) is rejected this
way. -/
theorem restore_unsupported_format :
    (∀ f : BackupFile, extname f.path ≠ ".sql" → extname f.path ≠ ".zip" →
      restoreBackup f = RestoreDecision.throwError "Unsupported backup file format") ∧
    (∀ p : String, compressBackupPath p = p ++ ".gz") ∧
    (∀ (p c : String) (n : Nat),
      restoreBackup ⟨p ++ ".sql.gz", n, c⟩ =
        RestoreDecision.throwError "Unsupported backup file format") := by
  have hgen : ∀ f : BackupFile, extname f.path ≠ ".sql" → extname f.path ≠ ".zip" →
      restoreBackup f = RestoreDecision.throwError "Unsupported backup file format" := by
    intro f h1 h2
    simp [restoreBackup, h1, h2]
  refine ⟨hgen, fun p => rfl, fun p c n => ?_⟩
  exact hgen ⟨p ++ ".sql.gz", n, c⟩
    (by rw [extname_sql_gz]; decide) (by rw [extname_sql_gz]; decide)

/-- C10 (witness): a `.tar` backup and a compressed CLI backup are rejected. -/
theorem restore_unsupported_format_witness :
    restoreBackup ⟨"backup.tar", 7, "x"⟩ =
      RestoreDecision.throwError "Unsupported backup file format" ∧
    restoreBackup ⟨"backup-2025-01-01T00-00-00-000Z" ++ ".sql.gz", 2048, "x"⟩ =
      RestoreDecision.throwError "Unsupported backup file format" :=
  ⟨restore_unsupported_format.1 ⟨"backup.tar", 7, "x"⟩ (by decide) (by decide),
   restore_unsupported_format.2.2 "backup-2025-01-01T00-00-00-000Z" "x" 2048⟩

/-! ## Matcher lemmas for the query-safety regexes -/

theorem litK_append (p₁ p₂ : List Char) (k : List Char → Bool) :
    ∀ l, litK (p₁ ++ p₂) k l = litK p₁ (litK p₂ k) l := by
  induction p₁ with
  | nil => intro l; rfl
  | cons c ps ih =>
    intro l
    cases l with
    | nil => rfl
    | cons d l' => simp [litK, ih]

theorem litK_append_fun (p₁ p₂ : List Char) (k : List Char → Bool) :
    litK (p₁ ++ p₂) k = litK p₁ (litK p₂ k) :=
  funext (litK_append p₁ p₂ k)

theorem suffix_of_cons_suffix {c : Char} {l L : List Char} (h : (c :: l) <:+ L) :
    l <:+ L := (List.suffix_cons c l).trans h

theorem litK_mono {L : List Char} {k k' : List Char → Bool}
    (hk : ∀ l, l <:+ L → k l = true → k' l = true) :
    ∀ (p l : List Char), l <:+ L → litK p k l = true → litK p k' l = true := by
  intro p
  induction p with
  | nil => intro l hs h; exact hk l hs h
  | cons c ps ih =>
    intro l hs h
    cases l with
    | nil => simp [litK] at h
    | cons d l' =>
      simp only [litK, Bool.and_eq_true] at h ⊢
      exact ⟨h.1, ih l' (suffix_of_cons_suffix hs) h.2⟩

theorem wsStarK_mono {L : List Char} {k k' : List Char → Bool}
    (hk : ∀ l, l <:+ L → k l = true → k' l = true) :
    ∀ l, l <:+ L → wsStarK k l = true → wsStarK k' l = true := by
  intro l
  induction l with
  | nil => intro hs h; simp only [wsStarK] at h ⊢; exact hk [] hs h
  | cons c l' ih =>
    intro hs h
    simp only [wsStarK, Bool.or_eq_true, Bool.and_eq_true] at h ⊢
    rcases h with h | ⟨hws, h⟩
    · exact Or.inl (hk _ hs h)
    · exact Or.inr ⟨hws, ih (suffix_of_cons_suffix hs) h⟩

theorem wsPlusK_mono {L : List Char} {k k' : List Char → Bool}
    (hk : ∀ l, l <:+ L → k l = true → k' l = true) :
    ∀ l, l <:+ L → wsPlusK k l = true → wsPlusK k' l = true := by
  intro l hs h
  cases l with
  | nil => simp [wsPlusK] at h
  | cons c l' =>
    simp only [wsPlusK, Bool.and_eq_true] at h ⊢
    exact ⟨h.1, wsStarK_mono hk l' (suffix_of_cons_suffix hs) h.2⟩

theorem dotStarK_mono {L : List Char} {k k' : List Char → Bool}
    (hk : ∀ l, l <:+ L → k l = true → k' l = true) :
    ∀ l, l <:+ L → dotStarK k l = true → dotStarK k' l = true := by
  intro l
  induction l with
  | nil => intro hs h; simp only [dotStarK] at h ⊢; exact hk [] hs h
  | cons c l' ih =>
    intro hs h
    simp only [dotStarK, Bool.or_eq_true, Bool.and_eq_true] at h ⊢
    rcases h with h | ⟨hnl, h⟩
    · exact Or.inl (hk _ hs h)
    · exact Or.inr ⟨hnl, ih (suffix_of_cons_suffix hs) h⟩

theorem searchK_mono {L : List Char} {k k' : List Char → Bool}
    (hk : ∀ l, l <:+ L → k l = true → k' l = true) :
    ∀ l, l <:+ L → searchK k l = true → searchK k' l = true := by
  intro l
  induction l with
  | nil => intro hs h; simp only [searchK] at h ⊢; exact hk [] hs h
  | cons c l' ih =>
    intro hs h
    simp only [searchK, Bool.or_eq_true] at h ⊢
    rcases h with h | h
    · exact Or.inl (hk _ hs h)
    · exact Or.inr (ih (suffix_of_cons_suffix hs) h)

theorem wsStarK_here {k : List Char → Bool} :
    ∀ l, k l = true → wsStarK k l = true := by
  intro l h; cases l <;> simp [wsStarK, h]

theorem searchK_append {k : List Char → Bool} (a : List Char) :
    ∀ l, searchK k l = true → searchK k (a ++ l) = true := by
  induction a with
  | nil => intro l h; simpa using h
  | cons c a' ih =>
    intro l h
    simp only [List.cons_append, searchK, Bool.or_eq_true]
    exact Or.inr (ih l h)

theorem searchK_of_suffix {k : List Char → Bool} {L l : List Char}
    (hs : l <:+ L) (h : searchK k l = true) : searchK k L = true := by
  obtain ⟨a, rfl⟩ := hs
  exact searchK_append a l h

theorem dotStarK_le_searchK {k : List Char → Bool} :
    ∀ l, dotStarK k l = true → searchK k l = true := by
  intro l
  induction l with
  | nil => simp [dotStarK, searchK]
  | cons c l' ih =>
    intro h
    simp only [dotStarK, Bool.or_eq_true, Bool.and_eq_true] at h
    simp only [searchK, Bool.or_eq_true]
    rcases h with h | ⟨_, h⟩
    · exact Or.inl h
    · exact Or.inr (ih h)

theorem noWhere_suffix {L : List Char}
    (hW : containsSub L ("where".data) = false) :
    ∀ l, l <:+ L → dotStarK (litK "where".data restAny) l = false := by
  intro l hs
  by_contra hne
  rw [Bool.not_eq_false] at hne
  have h2 := searchK_of_suffix hs (dotStarK_le_searchK l hne)
  unfold containsSub at hW
  rw [h2] at hW
  simp at hW

theorem litK_space_wsPlus (p : List Char) (k : List Char → Bool) :
    ∀ l, litK (' ' :: p) k l = true → wsPlusK (litK p k) l = true := by
  intro l h
  cases l with
  | nil => simp [litK] at h
  | cons c l' =>
    simp only [litK, Bool.and_eq_true, beq_iff_eq] at h
    obtain ⟨hc, h2⟩ := h
    subst hc
    simp only [wsPlusK]
    have hws : isWsChar ' ' = true := by decide
    rw [hws]
    simpa using wsStarK_here _ h2

theorem space_then_negWhere {L : List Char}
    (hW : containsSub L ("where".data) = false) :
    ∀ l, l <:+ L → litK [' '] restAny l = true →
      wsPlusK (fun r => !dotStarK (litK "where".data restAny) r) l = true := by
  intro l hs h
  cases l with
  | nil => simp [litK] at h
  | cons c l' =>
    simp only [litK, Bool.and_eq_true, beq_iff_eq] at h
    obtain ⟨hc, _⟩ := h
    subst hc
    simp only [wsPlusK]
    have hws : isWsChar ' ' = true := by decide
    rw [hws]
    have hnw : dotStarK (litK "where".data restAny) l' = false :=
      noWhere_suffix hW l' (suffix_of_cons_suffix hs)
    have hk : (fun r => !dotStarK (litK "where".data restAny) r) l' = true := by
      simp [hnw]
    simpa using wsStarK_here _ hk

theorem dropTable_danger {L : List Char}
    (h : containsSub L ("drop table".data) = true) : dangerDropTable L = true := by
  unfold containsSub at h
  rw [show ("drop table".data) = "drop".data ++ (' ' :: "table".data) by decide,
      litK_append_fun] at h
  unfold dangerDropTable
  refine searchK_mono (fun l1 hs1 h1 => ?_) L (List.suffix_refl L) h
  exact litK_mono (fun l2 _ h2 => litK_space_wsPlus "table".data restAny l2 h2)
    "drop".data l1 hs1 h1

theorem deleteNoWhere_danger {L : List Char}
    (hd : containsSub L ("delete from ".data) = true)
    (hW : containsSub L ("where".data) = false) :
    dangerDeleteNoWhere L = true := by
  unfold containsSub at hd
  rw [show ("delete from ".data) = "delete".data ++ (' ' :: ("from".data ++ [' '])) by decide,
      litK_append_fun] at hd
  unfold dangerDeleteNoWhere
  refine searchK_mono (fun l1 hs1 h1 => ?_) L (List.suffix_refl L) hd
  refine litK_mono (fun l2 hs2 h2 => ?_) "delete".data l1 hs1 h1
  have h3 := litK_space_wsPlus ("from".data ++ [' ']) restAny l2 h2
  refine wsPlusK_mono (fun l3 hs3 h4 => ?_) l2 hs2 h3
  rw [litK_append_fun] at h4
  refine litK_mono (fun l4 hs4 h5 => ?_) "from".data l3 hs3 h4
  exact space_then_negWhere hW l4 hs4 h5

theorem updateNoWhere_danger {L : List Char}
    (hu : searchK (litK "update".data (wsPlusK (dotStarK (litK "set".data
      (wsPlusK restAny))))) L = true)
    (hW : containsSub L ("where".data) = false) :
    dangerUpdateNoWhere L = true := by
  unfold dangerUpdateNoWhere
  refine searchK_mono (fun l1 hs1 h1 => ?_) L (List.suffix_refl L) hu
  refine litK_mono (fun l2 hs2 h2 => ?_) "update".data l1 hs1 h1
  refine wsPlusK_mono (fun l3 hs3 h3 => ?_) l2 hs2 h2
  refine dotStarK_mono (fun l4 hs4 h4 => ?_) l3 hs3 h3
  refine litK_mono (fun l5 hs5 h5 => ?_) "set".data l4 hs4 h4
  refine wsPlusK_mono (fun l6 hs6 _ => ?_) l5 hs5 h5
  have hnw : dotStarK (litK "where".data restAny) l6 = false :=
    noWhere_suffix hW l6 hs6
  simp [hnw]

/-- C1: the query-safety filter rejects queries containing `DROP TABLE` or
`TRUNCATE` in any letter case, and queries containing a `DELETE FROM` or
`UPDATE ... SET` statement with no `WHERE` anywhere; it accepts the plain
single-line `SELECT * FROM t`; and the `POST /api/database/query` handler
answers 400 exactly when the filter rejects. -/
theorem query_filter_safety (q : String) (execFails : Bool) :
    (containsCI q "drop table" = true → isQuerySafe q = false) ∧
    (containsCI q "truncate" = true → isQuerySafe q = false) ∧
    (containsCI q "delete from " = true → containsCI q "where" = false →
      isQuerySafe q = false) ∧
    (containsUpdateSetClause q = true → containsCI q "where" = false →
      isQuerySafe q = false) ∧
    isQuerySafe "SELECT * FROM t" = true ∧
    (postQueryStatus q execFails = 400 ↔ isQuerySafe q = false) := by
  refine ⟨?_, ?_, ?_, ?_, by decide, ?_⟩
  · intro h
    have hd : dangerDropTable (lower q) = true := dropTable_danger h
    simp [isQuerySafe, dangerousAny, hd]
  · intro h
    have hd : dangerTruncate (lower q) = true := h
    simp [isQuerySafe, dangerousAny, hd]
  · intro h1 h2
    have hd : dangerDeleteNoWhere (lower q) = true := deleteNoWhere_danger h1 h2
    simp [isQuerySafe, dangerousAny, hd]
  · intro h1 h2
    have hd : dangerUpdateNoWhere (lower q) = true := updateNoWhere_danger h1 h2
    simp [isQuerySafe, dangerousAny, hd]
  · cases hsafe : isQuerySafe q <;> cases execFails <;>
      simp [postQueryStatus, hsafe]

/-- C1 (witness): the filter and endpoint at concrete queries. -/
theorem query_filter_safety_witness :
    isQuerySafe "DROP TABLE users" = false ∧
    isQuerySafe "SELECT * FROM truncate_log" = false ∧
    isQuerySafe "DELETE FROM users" = false ∧
    isQuerySafe "UPDATE users SET x = 1" = false ∧
    (postQueryStatus "DROP TABLE users" false = 400 ↔
      isQuerySafe "DROP TABLE users" = false) :=
  ⟨(query_filter_safety "DROP TABLE users" false).1 (by decide),
   (query_filter_safety "SELECT * FROM truncate_log" false).2.1 (by decide),
   (query_filter_safety "DELETE FROM users" false).2.2.1 (by decide) (by decide),
   (query_filter_safety "UPDATE users SET x = 1" false).2.2.2.1 (by decide) (by decide),
   (query_filter_safety "DROP TABLE users" false).2.2.2.2.2⟩

/-! ## Lemmas for the allowlist structure of isQuerySafe -/

theorem wsStar_litK_dropWhile {p : List Char} {k : List Char → Bool} {z : Char}
    (hp : p.head? = some z) (hc0 : isWsChar z = false) :
    ∀ l, wsStarK (litK p k) l = true →
      litK p k (l.dropWhile (fun c => isWsChar c)) = true := by
  intro l
  induction l with
  | nil => intro h; simpa [wsStarK] using h
  | cons d l' ih =>
    intro h
    simp only [wsStarK, Bool.or_eq_true, Bool.and_eq_true] at h
    rcases h with h | ⟨hws, h⟩
    · cases p with
      | nil => simp at hp
      | cons c ps =>
        have hc : (c == d) = true ∧ litK ps k l' = true := by
          simpa [litK] using h
        have hcc : c = z := by simpa using hp
        have hd : isWsChar d = false := by
          rw [← beq_iff_eq.mp hc.1, hcc]
          exact hc0
        rw [List.dropWhile_cons_of_neg (by simp [hd])]
        exact h
    · rw [List.dropWhile_cons_of_pos (by simp [hws])]
      exact ih h

theorem litK_head {p : List Char} {k : List Char → Bool} {l : List Char}
    {z : Char} (hp : p.head? = some z) (h : litK p k l = true) :
    l.head? = some z := by
  cases p with
  | nil => simp at hp
  | cons c ps =>
    cases l with
    | nil => simp [litK] at h
    | cons d l' =>
      have hc : (c == d) = true ∧ litK ps k l' = true := by
        simpa [litK] using h
      have hcc : c = z := by simpa using hp
      simp only [List.head?_cons, Option.some.injEq]
      rw [← beq_iff_eq.mp hc.1]
      exact hcc

theorem wsStarK_extract {k : List Char → Bool} :
    ∀ l, wsStarK k l = true → ∃ l', l' <:+ l ∧ k l' = true := by
  intro l
  induction l with
  | nil =>
    intro h
    exact ⟨[], List.suffix_refl [], by simpa [wsStarK] using h⟩
  | cons c l' ih =>
    intro h
    simp only [wsStarK, Bool.or_eq_true, Bool.and_eq_true] at h
    rcases h with h | ⟨_, h⟩
    · exact ⟨c :: l', List.suffix_refl _, h⟩
    · obtain ⟨l'', hs, hk⟩ := ih h
      exact ⟨l'', hs.trans (List.suffix_cons c l'), hk⟩

theorem litK_extract {k : List Char → Bool} :
    ∀ (p l : List Char), litK p k l = true → ∃ l', l' <:+ l ∧ k l' = true := by
  intro p
  induction p with
  | nil => intro l h; exact ⟨l, List.suffix_refl l, h⟩
  | cons c ps ih =>
    intro l h
    cases l with
    | nil => simp [litK] at h
    | cons d l' =>
      simp only [litK, Bool.and_eq_true] at h
      obtain ⟨l'', hs, hk⟩ := ih l' h.2
      exact ⟨l'', hs.trans (List.suffix_cons d l'), hk⟩

theorem allowed_of_safe {q : String} (h : isQuerySafe q = true) :
    allowedAny (lower q) = true := by
  simp only [isQuerySafe, Bool.and_eq_true] at h
  exact h.2

/-- C9: the filter accepts only queries that begin (after optional leading
whitespace, case-insensitively) with `SELECT`, `INSERT`, `UPDATE` followed by
a `WHERE`, `WITH`, or `EXPLAIN`; in particular every query that begins with
`DELETE` is rejected — even with a `WHERE` clause — as is any statement with a
prefix outside the allowlist (e.g. `GRANT`, `CREATE`) even though it matches
no denylist pattern. -/
theorem query_filter_allowlist (q : String) :
    (isQuerySafe q = true →
      startsAfterWs q "select" = true ∨ startsAfterWs q "insert" = true ∨
      (startsAfterWs q "update" = true ∧ containsCI q "where" = true) ∨
      startsAfterWs q "with" = true ∨ startsAfterWs q "explain" = true) ∧
    (startsAfterWs q "delete" = true → isQuerySafe q = false) ∧
    isQuerySafe "DELETE FROM t WHERE id = 1" = false ∧
    isQuerySafe "GRANT ALL ON t TO u" = false ∧
    isQuerySafe "CREATE TABLE t (x INT)" = false := by
  refine ⟨?_, ?_, by decide, by decide, by decide⟩
  · intro h
    have ha := allowed_of_safe h
    simp only [allowedAny, Bool.or_eq_true] at ha
    rcases ha with ((((h1 | h1) | h1) | h1) | h1)
    · exact Or.inl (wsStar_litK_dropWhile (z := 's') (by decide) (by decide) _ h1)
    · exact Or.inr (Or.inl (wsStar_litK_dropWhile (z := 'i') (by decide) (by decide) _ h1))
    · refine Or.inr (Or.inr (Or.inl ⟨?_, ?_⟩))
      · have hupd := wsStar_litK_dropWhile (z := 'u') (by decide) (by decide) _ h1
        exact litK_mono (fun l _ _ => rfl) "update".data _
          (List.dropWhile_suffix (fun c => isWsChar c)) hupd
      · obtain ⟨l1, hs1, hk1⟩ := wsStarK_extract _ h1
        obtain ⟨l2, hs2, hk2⟩ := litK_extract "update".data l1 hk1
        exact searchK_of_suffix (hs2.trans hs1) (dotStarK_le_searchK l2 hk2)
    · exact Or.inr (Or.inr (Or.inr (Or.inl
        (wsStar_litK_dropWhile (z := 'w') (by decide) (by decide) _ h1))))
    · exact Or.inr (Or.inr (Or.inr (Or.inr
        (wsStar_litK_dropWhile (z := 'e') (by decide) (by decide) _ h1))))
  · intro hdel
    have hD : ((lower q).dropWhile (fun c => isWsChar c)).head? = some 'd' :=
      litK_head (by decide) hdel
    have hall : allowedAny (lower q) = false := by
      by_contra hne
      rw [Bool.not_eq_false] at hne
      simp only [allowedAny, Bool.or_eq_true] at hne
      rcases hne with ((((h1 | h1) | h1) | h1) | h1)
      · have hh := litK_head (z := 's') (by decide)
          (wsStar_litK_dropWhile (z := 's') (by decide) (by decide) _ h1)
        rw [hh] at hD
        exact absurd hD (by decide)
      · have hh := litK_head (z := 'i') (by decide)
          (wsStar_litK_dropWhile (z := 'i') (by decide) (by decide) _ h1)
        rw [hh] at hD
        exact absurd hD (by decide)
      · have hh := litK_head (z := 'u') (by decide)
          (wsStar_litK_dropWhile (z := 'u') (by decide) (by decide) _ h1)
        rw [hh] at hD
        exact absurd hD (by decide)
      · have hh := litK_head (z := 'w') (by decide)
          (wsStar_litK_dropWhile (z := 'w') (by decide) (by decide) _ h1)
        rw [hh] at hD
        exact absurd hD (by decide)
      · have hh := litK_head (z := 'e') (by decide)
          (wsStar_litK_dropWhile (z := 'e') (by decide) (by decide) _ h1)
        rw [hh] at hD
        exact absurd hD (by decide)
    simp [isQuerySafe, hall]

/-- C9 (witness): the allowlist structure at concrete queries. -/
theorem query_filter_allowlist_witness :
    (startsAfterWs "SELECT 1" "select" = true ∨
      startsAfterWs "SELECT 1" "insert" = true ∨
      (startsAfterWs "SELECT 1" "update" = true ∧
        containsCI "SELECT 1" "where" = true) ∨
      startsAfterWs "SELECT 1" "with" = true ∨
      startsAfterWs "SELECT 1" "explain" = true) ∧
    isQuerySafe "DELETE FROM t" = false :=
  ⟨(query_filter_allowlist "SELECT 1").1 (by decide),
   (query_filter_allowlist "DELETE FROM t").2.1 (by decide)⟩

end DBWeb
